import Mathlib

/-!
# Verification of the PDF validator's response-normalization pipeline

Shallow embedding of `backend/server.js` (the Groq variant): the
`extractJSON` cleanup, the JSON parse with its fallback verdict, the
field normalization of `validateWithLLM`, and the per-rule orchestration
loop of the `/api/validate` handler.

Modelling conventions:
* JavaScript strings are Lean `String`s viewed as `List Char` (Unicode
  scalar values stand in for UTF-16 code units).
* JSON number literals are modelled as exact integers; fractional and
  exponent literals are rejected by the embedded parser, while the
  source's `JSON.parse` would accept them as floating-point values.
  All claims under study involve integer confidences only.
* A JavaScript number that is `NaN` is modelled by `JsNum.nan`;
  `parseInt`, `Math.min` and `Math.max` propagate it exactly as the
  source does.
* `JSON.parse` objects keep the last of duplicate keys; property access
  on a non-object yields `undefined` (here `none`).
-/

/-- Whitespace class used by the source's `\s` regex atom, `trim`, and
`parseInt` (restricted to the ASCII members; the model applies the same
class everywhere, as the source does). -/
def isJsWs (c : Char) : Bool :=
  c = ' ' || c = '\t' || c = '\n' || c = '\r' || c = '\x0b' || c = '\x0c'

/-- Whitespace accepted between tokens by `JSON.parse`. -/
def isJsonWs (c : Char) : Bool :=
  c = ' ' || c = '\t' || c = '\n' || c = '\r'

/-- Drop leading JavaScript whitespace. -/
def dropLws (cs : List Char) : List Char := cs.dropWhile isJsWs

/-- Drop trailing JavaScript whitespace. -/
def dropRws (cs : List Char) : List Char := (cs.reverse.dropWhile isJsWs).reverse

/-- `String.prototype.trim`. -/
def trimChars (cs : List Char) : List Char := dropRws (dropLws cs)

/-- `trim` on strings. -/
def strTrim (s : String) : String := ⟨trimChars s.data⟩

/-- `String.prototype.substring(0, n)`. -/
def strTake (n : Nat) (s : String) : String := ⟨s.data.take n⟩

/-- Does `pat` occur as a contiguous run inside `cs`? -/
def hasRun (pat : List Char) : List Char → Bool
  | [] => pat.isPrefixOf []
  | c :: cs => pat.isPrefixOf (c :: cs) || hasRun pat cs

/-- `String.prototype.includes`. -/
def strIncludes (s pat : String) : Bool := hasRun pat.data s.data

/-- `String.prototype.toLowerCase` (character-wise lowering). -/
def strLower (s : String) : String := ⟨s.data.map Char.toLower⟩

/-- A JavaScript number as it matters to this pipeline: an integer or `NaN`. -/
inductive JsNum where
  | nan : JsNum
  | int : Int → JsNum
deriving DecidableEq, Repr

/-- A value produced by `JSON.parse`. -/
inductive JVal where
  | jnull : JVal
  | jbool : Bool → JVal
  | jnum : Int → JVal
  | jstr : String → JVal
  | jarr : List JVal → JVal
  | jobj : List (String × JVal) → JVal
deriving Repr

/-- The structured verdict record returned per rule (wire shape of the
`results` entries). -/
structure Verdict where
  rule : String
  status : String
  evidence : String
  reasoning : String
  confidence : JsNum
deriving DecidableEq, Repr

/-- JavaScript truthiness of a parsed JSON value. -/
def jsTruthy : JVal → Bool
  | .jnull => false
  | .jbool b => b
  | .jnum n => n ≠ 0
  | .jstr s => s ≠ ""
  | .jarr _ => true
  | .jobj _ => true

mutual

/-- `String(v)` coercion of a parsed JSON value. -/
def jsToString : JVal → String
  | .jnull => "null"
  | .jbool b => if b then "true" else "false"
  | .jnum n => toString n
  | .jstr s => s
  | .jarr vs => String.intercalate "," (jsArrParts vs)
  | .jobj _ => "[object Object]"

/-- Elements of `Array.prototype.toString`: `null` renders empty. -/
def jsArrParts : List JVal → List String
  | [] => []
  | .jnull :: vs => "" :: jsArrParts vs
  | v :: vs => jsToString v :: jsArrParts vs

end

/-- Own-property lookup on a `JSON.parse` object: the last duplicate wins. -/
def jsLookup (fs : List (String × JVal)) (k : String) : Option JVal :=
  match fs with
  | [] => none
  | (k1, v) :: rest =>
    match jsLookup rest k with
    | some w => some w
    | none => if k1 = k then some v else none

/-- `v[k]`: property access, `undefined` (`none`) on non-objects. -/
def jsGetField (v : JVal) (k : String) : Option JVal :=
  match v with
  | .jobj fs => jsLookup fs k
  | _ => none

/-- The `a.k1 || a.k2 || ...` chain: first key whose value is present and
truthy; `none` when every candidate is absent or falsy. -/
def firstTruthy (v : JVal) (keys : List String) : Option JVal :=
  match keys with
  | [] => none
  | k :: ks =>
    match jsGetField v k with
    | some w => if jsTruthy w then some w else firstTruthy v ks
    | none => firstTruthy v ks

/-- Decimal value of a digit run. -/
def digitsVal (cs : List Char) : Nat :=
  cs.foldl (fun n c => n * 10 + (c.toNat - 48)) 0

/-- Hexadecimal digit value. -/
def hexDigitVal (c : Char) : Nat :=
  if c.isDigit then c.toNat - 48
  else if 'a' ≤ c ∧ c ≤ 'f' then c.toNat - 87
  else c.toNat - 55

/-- Is `c` a hexadecimal digit? -/
def isHexDigit (c : Char) : Bool :=
  c.isDigit || ('a' ≤ c && c ≤ 'f') || ('A' ≤ c && c ≤ 'F')

/-- Hexadecimal value of a digit run. -/
def hexVal (cs : List Char) : Nat :=
  cs.foldl (fun n c => n * 16 + hexDigitVal c) 0

/-- `parseInt(s)` (radix auto-detection: `0x` prefix means hex): skip
whitespace, optional sign, longest digit run; `NaN` when no digits. -/
def jsParseIntStr (s : String) : JsNum :=
  let cs := dropLws s.data
  let sgn : Int := match cs with
    | '-' :: _ => -1
    | _ => 1
  let cs1 := match cs with
    | '-' :: r => r
    | '+' :: r => r
    | _ => cs
  match cs1 with
  | '0' :: x :: r =>
    if x = 'x' ∨ x = 'X' then
      let ds := r.takeWhile isHexDigit
      if ds = [] then .nan else .int (sgn * hexVal ds)
    else
      let ds := cs1.takeWhile Char.isDigit
      .int (sgn * digitsVal ds)
  | _ =>
    let ds := cs1.takeWhile Char.isDigit
    if ds = [] then .nan else .int (sgn * digitsVal ds)

/-- `parseInt(v)` coerces its argument to a string first. -/
def jsParseInt (v : JVal) : JsNum := jsParseIntStr (jsToString v)

/-- `Math.min(100, Math.max(0, x))`; both propagate `NaN`. -/
def jsClamp : JsNum → JsNum
  | .nan => .nan
  | .int n => .int (min 100 (max 0 n))

/-- One attempt of the global regex `/```json\s*/gi` at the current
position: three backticks, then `json` case-insensitively, then maximal
whitespace; returns the remainder after the match. -/
def matchFence1 (cs : List Char) : Option (List Char) :=
  match cs with
  | a :: b :: c :: d :: e :: f :: g :: rest =>
    if a = '`' ∧ b = '`' ∧ c = '`' ∧ d.toLower = 'j' ∧ e.toLower = 's' ∧
        f.toLower = 'o' ∧ g.toLower = 'n'
    then some (dropLws rest) else none
  | _ => none

/-- One attempt of the global regex `/```\s*/g` at the current position. -/
def matchFence2 (cs : List Char) : Option (List Char) :=
  match cs with
  | a :: b :: c :: rest =>
    if a = '`' ∧ b = '`' ∧ c = '`' then some (dropLws rest) else none
  | _ => none

/-- Left-to-right global replace-with-empty of the matcher `f`: the
semantics of `String.prototype.replace` with a `g` regex and an empty
replacement.  Fueled so that it evaluates by reduction; `fuel` at least
`cs.length + 1` suffices for matchers that consume at least one
character. -/
def scanStripF (f : List Char → Option (List Char)) : Nat → List Char → List Char
  | 0, cs => cs
  | fuel + 1, cs =>
    match f cs with
    | some r => scanStripF f fuel r
    | none =>
      match cs with
      | [] => []
      | c :: cs1 => c :: scanStripF f fuel cs1

/-- `text.replace(/```json\s*\/gi, '').replace(/```\s*\/g, '')`. -/
def stripFences (cs : List Char) : List Char :=
  scanStripF matchFence2 (cs.length + 1)
    (scanStripF matchFence1 (cs.length + 1) cs)

/-- `indexOf(c)`. -/
def idxOfChar (c : Char) (cs : List Char) : Option Nat := cs.findIdx? (· = c)

/-- `lastIndexOf(c)`. -/
def lastIdxOfChar (c : Char) (cs : List Char) : Option Nat :=
  (cs.reverse.findIdx? (· = c)).map (fun i => cs.length - 1 - i)

/-- The brace-span slice of `extractJSON`: between the first `\x7b` and
the last `\x7d` when both exist in that order, otherwise unchanged. -/
def braceSlice (cs : List Char) : List Char :=
  match idxOfChar '{' cs, lastIdxOfChar '}' cs with
  | some i, some j => if i < j then (cs.drop i).take (j + 1 - i) else cs
  | _, _ => cs

/-- `extractJSON(text)` from the source: strip fenced code-block
markers, trim, slice to the outermost brace span, trim again.  (The
source wraps this in a `try` whose `catch` is unreachable: none of the
string operations involved can throw.) -/
def extractJSON (s : String) : String :=
  ⟨trimChars (braceSlice (trimChars (stripFences s.data)))⟩

/-- Skip inter-token JSON whitespace. -/
def dropJsonWs (cs : List Char) : List Char := cs.dropWhile isJsonWs

/-- Body of a JSON string literal after the opening quote: returns the
decoded characters and the remainder after the closing quote.  Raw
control characters and unknown escapes are rejected, as `JSON.parse`
rejects them. -/
def parseStrChars : List Char → Except String (List Char × List Char)
  | [] => .error "Unterminated string in JSON"
  | '"' :: rest => .ok ([], rest)
  | '\\' :: 'u' :: h1 :: h2 :: h3 :: h4 :: rest =>
    if isHexDigit h1 ∧ isHexDigit h2 ∧ isHexDigit h3 ∧ isHexDigit h4 then
      match parseStrChars rest with
      | .ok (cs, r) => .ok (Char.ofNat (hexVal [h1, h2, h3, h4]) :: cs, r)
      | .error e => .error e
    else .error "Bad Unicode escape in JSON"
  | '\\' :: c :: rest =>
    let dec : Option Char :=
      if c = '"' then some '"'
      else if c = '\\' then some '\\'
      else if c = '/' then some '/'
      else if c = 'b' then some '\x08'
      else if c = 'f' then some '\x0c'
      else if c = 'n' then some '\n'
      else if c = 'r' then some '\r'
      else if c = 't' then some '\t'
      else none
    match dec with
    | some d =>
      match parseStrChars rest with
      | .ok (cs, r) => .ok (d :: cs, r)
      | .error e => .error e
    | none => .error "Bad escaped character in JSON"
  | c :: rest =>
    if c.toNat < 32 then .error "Bad control character in JSON string"
    else
      match parseStrChars rest with
      | .ok (cs, r) => .ok (c :: cs, r)
      | .error e => .error e

/-- An integer JSON number literal at the head of `cs` (after any sign
handling done by the caller): digits without a leading zero, not
followed by a fraction or exponent (the model's integer restriction). -/
def parseIntTok (neg : Bool) (cs : List Char) : Except String (Int × List Char) :=
  let ds := cs.takeWhile Char.isDigit
  let rest := cs.dropWhile Char.isDigit
  if h : ds = [] then .error "Unexpected token in JSON number"
  else if ds.head h = '0' ∧ ds.length > 1 then .error "Leading zero in JSON number"
  else
    match rest with
    | '.' :: _ => .error "Non-integer JSON number outside model scope"
    | 'e' :: _ => .error "Non-integer JSON number outside model scope"
    | 'E' :: _ => .error "Non-integer JSON number outside model scope"
    | _ => .ok (if neg then -(digitsVal ds : Int) else (digitsVal ds : Int), rest)

mutual

/-- One JSON value at the head of the input (leading whitespace allowed),
with the remainder. -/
def parseVal : Nat → List Char → Except String (JVal × List Char)
  | 0, _ => .error "JSON nesting too deep"
  | fuel + 1, cs =>
    match dropJsonWs cs with
    | [] => .error "Unexpected end of JSON input"
    | '{' :: rest => parseObjBody fuel (dropJsonWs rest) true
    | '[' :: rest => parseArrBody fuel (dropJsonWs rest) true
    | '"' :: rest =>
      match parseStrChars rest with
      | .ok (cs1, r) => .ok (.jstr ⟨cs1⟩, r)
      | .error e => .error e
    | 't' :: 'r' :: 'u' :: 'e' :: rest => .ok (.jbool true, rest)
    | 'f' :: 'a' :: 'l' :: 's' :: 'e' :: rest => .ok (.jbool false, rest)
    | 'n' :: 'u' :: 'l' :: 'l' :: rest => .ok (.jnull, rest)
    | '-' :: rest =>
      match parseIntTok true rest with
      | .ok (n, r) => .ok (.jnum n, r)
      | .error e => .error e
    | c :: rest =>
      if c.isDigit then
        match parseIntTok false (c :: rest) with
        | .ok (n, r) => .ok (.jnum n, r)
        | .error e => .error e
      else .error ("Unexpected token " ++ String.singleton c ++ " in JSON")

/-- Members of an object after `\x7b` (whitespace already skipped);
`first` is true before any member has been read. -/
def parseObjBody : Nat → List Char → Bool → Except String (JVal × List Char)
  | 0, _, _ => .error "JSON nesting too deep"
  | _ + 1, '}' :: rest, true => .ok (.jobj [], rest)
  | fuel + 1, cs, _ =>
    match cs with
    | '"' :: rest =>
      match parseStrChars rest with
      | .error e => .error e
      | .ok (kcs, r1) =>
        match dropJsonWs r1 with
        | ':' :: r2 =>
          match parseVal fuel r2 with
          | .error e => .error e
          | .ok (v, r3) =>
            match dropJsonWs r3 with
            | ',' :: r4 =>
              match parseObjBody fuel (dropJsonWs r4) false with
              | .ok (.jobj fs, r5) => .ok (.jobj ((⟨kcs⟩, v) :: fs), r5)
              | .ok _ => .error "Malformed JSON object"
              | .error e => .error e
            | '}' :: r4 => .ok (.jobj [(⟨kcs⟩, v)], r4)
            | _ => .error "Expected comma or closing brace in JSON object"
        | _ => .error "Expected colon in JSON object"
    | _ => .error "Expected string key in JSON object"

/-- Elements of an array after `[` (whitespace already skipped). -/
def parseArrBody : Nat → List Char → Bool → Except String (JVal × List Char)
  | 0, _, _ => .error "JSON nesting too deep"
  | _ + 1, ']' :: rest, true => .ok (.jarr [], rest)
  | fuel + 1, cs, _ =>
    match parseVal fuel cs with
    | .error e => .error e
    | .ok (v, r1) =>
      match dropJsonWs r1 with
      | ',' :: r2 =>
        match parseArrBody fuel r2 false with
        | .ok (.jarr vs, r3) => .ok (.jarr (v :: vs), r3)
        | .ok _ => .error "Malformed JSON array"
        | .error e => .error e
      | ']' :: r2 => .ok (.jarr [v], r2)
      | _ => .error "Expected comma or closing bracket in JSON array"

end

/-- `JSON.parse(s)`: one value, then only trailing whitespace. -/
def parseJson (s : String) : Except String JVal :=
  match parseVal (s.data.length + 1) s.data with
  | .error e => .error e
  | .ok (v, rest) =>
    match dropJsonWs rest with
    | [] => .ok v
    | _ => .error "Unexpected non-whitespace after JSON value"

/-- The looked-up and coerced raw status string of a parsed reply:
`String(result.status || result.Status || 'fail')`. -/
def statusRaw (result : JVal) : String :=
  jsToString ((firstTruthy result ["status", "Status"]).getD (JVal.jstr "fail"))

/-- Lines 161-179 of the source: field extraction and normalization of a
successfully parsed (non-null) model reply. -/
def normalizeParsed (result : JVal) (rule : String) : Verdict :=
  let status := strLower (statusRaw result)
  let evidence := strTake 200 (jsToString
    ((firstTruthy result ["evidence", "Evidence", "quote"]).getD
      (JVal.jstr "No evidence provided")))
  let reasoning := strTake 200 (jsToString
    ((firstTruthy result ["reasoning", "Reasoning", "reason"]).getD
      (JVal.jstr "No reasoning provided")))
  let confidence := jsClamp (jsParseInt
    ((firstTruthy result ["confidence", "Confidence", "score"]).getD
      (JVal.jnum 50)))
  let validStatus := if status = "pass" || status = "fail" then status else "fail"
  ⟨rule, validStatus, evidence, reasoning, confidence⟩

/-- Lines 137-179 of the source: trim the raw reply, run `extractJSON`,
`JSON.parse` it, and either build the parse-failure fallback verdict or
normalize the parsed fields.  `Except.error` models the one way this
stretch of code can throw: the reply parses to JSON `null` and the
property access `result.status` raises a `TypeError`. -/
def normalizeReply (raw rule : String) : Except String Verdict :=
  let content := extractJSON (strTrim raw)
  match parseJson content with
  | .error msg =>
    .ok ⟨rule, "fail", "Unable to parse LLM response",
      "Parse error: " ++ msg ++ ". Raw content: " ++ strTake 100 content,
      .int 0⟩
  | .ok .jnull => .error "Cannot read properties of null (reading 'status')"
  | .ok v => .ok (normalizeParsed v rule)

/-- Lines 183-192 of the source: the `catch` block's re-mapping of error
messages before rethrowing to the caller. -/
def remapErr (m : String) : String :=
  if strIncludes m "401" then "Invalid API key"
  else if strIncludes m "429" then "Rate limit exceeded"
  else if strIncludes m "quota" then "API quota exceeded"
  else m

/-- The outcome of the single completion request a rule triggers: the
raw text content of a well-formed envelope, or the message of the error
thrown before normalization (network failure, non-ok response, malformed
envelope). -/
inductive CompOutcome where
  | success : String → CompOutcome
  | failure : String → CompOutcome
deriving DecidableEq, Repr

/-- `validateWithLLM(pdfText, rule)` as seen by its caller, with the
completion request abstracted by `outcome`: the missing-credential throw
happens before the `try` block (no remapping); completion errors and the
null-reply `TypeError` pass through the `catch` remapping. -/
def validateWithLLM (apiKey : Option String) (outcome : CompOutcome)
    (rule : String) : Except String Verdict :=
  match apiKey with
  | none => .error "Groq API key not configured in .env file"
  | some _ =>
    match outcome with
    | .failure msg => .error (remapErr msg)
    | .success raw =>
      match normalizeReply raw rule with
      | .ok v => .ok v
      | .error m => .error (remapErr m)

/-- One iteration of the `/api/validate` loop: any error thrown by
`validateWithLLM` is caught and converted into a per-rule error verdict. -/
def runRule (apiKey : Option String) (p : String × CompOutcome) : Verdict :=
  match validateWithLLM apiKey p.2 p.1 with
  | .ok v => v
  | .error m => ⟨p.1, "error", "N/A", m, .int 0⟩

/-- The `/api/validate` loop over the submitted rules, in order; the
inter-request delay does not affect the computed results. -/
def validateBatch (apiKey : Option String)
    (pairs : List (String × CompOutcome)) : List Verdict :=
  pairs.map (runRule apiKey)

/-- Well-formedness of a verdict as the spec's invariant states it:
all fields present (enforced by the record type), a known status, and an
integer confidence within `[0, 100]`. -/
def wellFormedVerdict (v : Verdict) : Bool :=
  (v.status = "pass" || v.status = "fail" || v.status = "error") &&
  match v.confidence with
  | .nan => false
  | .int n => 0 ≤ n && n ≤ 100

/-- A canonical-field model reply as a parsed JSON object. -/
def mkReply (s e r : String) (c : Int) : JVal :=
  .jobj [("status", .jstr s), ("evidence", .jstr e),
         ("reasoning", .jstr r), ("confidence", .jnum c)]

/-- Wrap a payload in the markdown code fences of the spec's example. -/
def wrapFence (t : String) : String := "```json\n" ++ t ++ "\n```"

/-- Do the next two characters exist and equal backticks? -/
def ticksAhead : List Char → Bool
  | a :: b :: _ => a = '`' && b = '`'
  | _ => false

/-- Three consecutive backticks occur somewhere in the character list. -/
def hasTripleTick : List Char → Bool
  | [] => false
  | c :: cs => (c = '`' && ticksAhead cs) || hasTripleTick cs

/-- A payload free of fence markers: no run of three backticks. -/
def fenceFree (t : String) : Prop := hasTripleTick t.data = false

/-- A three-rule batch whose second rule's completion call fails with a
transport error, used to exercise the batch isolation property. -/
def demoPairs : List (String × CompOutcome) :=
  [("r1", .success "\x7b\"status\":\"pass\",\"evidence\":\"a\",\"reasoning\":\"b\",\"confidence\":80\x7d"),
   ("r2", .failure "boom"),
   ("r3", .success "\x7b\"status\":\"fail\",\"evidence\":\"c\",\"reasoning\":\"d\",\"confidence\":40\x7d")]

/-- The characters of the closing fence `"\n```"`. -/
def nlTicks : List Char := ['\n', '`', '`', '`']

/-- The characters of the opening fence `"```json\n"`. -/
def hdrTicks : List Char := ['`', '`', '`', 'j', 's', 'o', 'n', '\n']

theorem strTake_eq_self (n : Nat) (s : String) (h : s.data.length ≤ n) :
    strTake n s = s := by
  cases s with
  | mk data => simp [strTake, List.take_of_length_le h]

theorem clamp_parse_roundtrip (c : Int) (h1 : 1 ≤ c) (h2 : c ≤ 100) :
    jsClamp (jsParseInt (JVal.jnum c)) = JsNum.int c := by
  interval_cases c <;> rfl

/-- Claim C1: the spec's invariant says every Verdict produced by the
normalization pipeline has status in pass/fail/error and an integer
confidence in [0,100].  The code violates it: a reply whose confidence
is a truthy non-numeric value (here the string "high") survives the
fallback chain, `parseInt` yields `NaN`, and the clamp propagates it,
so the verdict carries a `NaN` confidence.  This theorem evaluates the
pipeline at the failing input and shows the resulting verdict is not
well-formed. -/
theorem confidence_nan_breaks_wellformedness :
    normalizeReply "\x7b\"status\":\"pass\",\"evidence\":\"e\",\"reasoning\":\"r\",\"confidence\":\"high\"\x7d" "r1" =
      .ok ⟨"r1", "pass", "e", "r", .nan⟩ ∧
    wellFormedVerdict ⟨"r1", "pass", "e", "r", .nan⟩ = false :=
  ⟨rfl, rfl⟩

/-- Claim C2 (counterexample): the claim says an unparseable reply yields
a Verdict with status "error"; the source's parse-failure fallback
(line 154) writes status "fail" instead, as this evaluation of the
pipeline at the non-JSON reply "I think it passes." shows. -/
theorem parse_failure_yields_fail_not_error :
    normalizeReply "I think it passes." "r1" =
      .ok ⟨"r1", "fail", "Unable to parse LLM response",
        "Parse error: Unexpected token I in JSON. Raw content: I think it passes.",
        .int 0⟩ ∧
    ("fail" : String) ≠ "error" :=
  ⟨rfl, by decide⟩

/-- Claim C2 (amended): the normalizer never raises except when the reply
parses to JSON null (the `result.status` property access throws); for
every reply whose cleaned text is not parseable JSON it returns a
Verdict with status "fail", evidence "Unable to parse LLM response",
reasoning carrying the parse error message plus a 100-character excerpt
of the offending text, and confidence 0. -/
theorem normalize_parse_failure_fallback (raw rule : String) :
    (∀ e, normalizeReply raw rule = .error e →
      parseJson (extractJSON (strTrim raw)) = .ok .jnull) ∧
    (∀ msg, parseJson (extractJSON (strTrim raw)) = .error msg →
      normalizeReply raw rule = .ok ⟨rule, "fail", "Unable to parse LLM response",
        "Parse error: " ++ msg ++ ". Raw content: " ++
          strTake 100 (extractJSON (strTrim raw)),
        .int 0⟩) := by
  constructor
  · intro e h
    unfold normalizeReply at h
    cases hp : parseJson (extractJSON (strTrim raw)) with
    | error m => simp [hp] at h
    | ok v => cases v <;> simp_all
  · intro msg h
    simp [normalizeReply, h]

/-- Witness for the amended C2 at the concrete unparseable reply "oops". -/
theorem normalize_parse_failure_fallback_witness :
    normalizeReply "oops" "r" = .ok ⟨"r", "fail", "Unable to parse LLM response",
      "Parse error: Unexpected token o in JSON. Raw content: oops", .int 0⟩ :=
  (normalize_parse_failure_fallback "oops" "r").2 "Unexpected token o in JSON" rfl

/-- Claim C3 (counterexample): the claim says a missing credential fails
the whole batch before any per-rule work, and is not converted into a
per-rule error Verdict.  In the source the throw at line 74 happens
inside `validateWithLLM`, which the per-rule `catch` of the
`/api/validate` loop converts into an ordinary error Verdict: with no
API key, a one-rule batch completes and returns exactly that per-rule
Verdict. -/
theorem missing_key_becomes_per_rule_verdict :
    validateBatch none [("r1", .success "x")] =
      [⟨"r1", "error", "N/A", "Groq API key not configured in .env file", .int 0⟩] :=
  rfl

/-- Claim C3 (amended): when the credential is absent the batch does not
fail fast; every rule is still iterated (before any completion call for
that rule) and each one yields a per-rule error Verdict carrying the
configuration error message. -/
theorem missing_key_per_rule_uniform (pairs : List (String × CompOutcome)) :
    validateBatch none pairs = pairs.map
      (fun p => ⟨p.1, "error", "N/A",
        "Groq API key not configured in .env file", .int 0⟩) :=
  rfl

/-- Claim C4: the batch result has exactly one Verdict per rule in
submission order; entry `i` is a function of rule `i` alone (so one
rule's failure cannot affect another's); a rule whose completion call
raises yields, at that rule's position, a Verdict with status "error",
evidence "N/A", reasoning equal to the message of the raised error (as
rethrown by the source's catch-block remapping), and confidence 0; a
rule whose completion succeeds is processed normally. -/
theorem batch_per_rule_isolation (k : String) (pairs : List (String × CompOutcome)) :
    (validateBatch (some k) pairs).length = pairs.length ∧
    (∀ i : Nat, (validateBatch (some k) pairs)[i]? =
      (pairs[i]?).map (runRule (some k))) ∧
    (∀ r msg, runRule (some k) (r, CompOutcome.failure msg) =
      ⟨r, "error", "N/A", remapErr msg, .int 0⟩) ∧
    (∀ r reply v, normalizeReply reply r = .ok v →
      runRule (some k) (r, CompOutcome.success reply) = v) := by
  refine ⟨by simp [validateBatch], fun i => by simp [validateBatch], fun r msg => rfl,
    fun r reply v h => ?_⟩
  simp [runRule, validateWithLLM, h]

/-- Witness for C4 at the three-rule batch whose second completion call
fails: the result has length 3, and the failing rule's entry is the
error Verdict with the transport error's message. -/
theorem batch_per_rule_isolation_witness :
    (validateBatch (some "k") demoPairs).length = 3 ∧
    (validateBatch (some "k") demoPairs)[1]? =
      some ⟨"r2", "error", "N/A", "boom", .int 0⟩ ∧
    (validateBatch (some "k") demoPairs)[0]? =
      some ⟨"r1", "pass", "a", "b", .int 80⟩ := by
  obtain ⟨h1, h2, h3, h4⟩ := batch_per_rule_isolation "k" demoPairs
  refine ⟨h1.trans rfl, (h2 1).trans ?_, (h2 0).trans ?_⟩
  · have := h3 "r2" "boom"
    simp [demoPairs, this, show remapErr "boom" = "boom" from rfl]
  · have := h4 "r1"
      "\x7b\"status\":\"pass\",\"evidence\":\"a\",\"reasoning\":\"b\",\"confidence\":80\x7d"
      ⟨"r1", "pass", "a", "b", .int 80⟩ rfl
    simp [demoPairs, this]

/-- Claim C5 (counterexample): the claim quantifies over well-formed
replies with string evidence of length at most 200 and integer
confidence in [0,100]; the empty string and 0 satisfy those bounds, yet
the `||` fallback chain treats them as missing: evidence "" becomes
"No evidence provided" and confidence 0 becomes 50, so the four fields
are not reproduced unchanged. -/
theorem wellformed_reply_not_preserved :
    normalizeParsed (mkReply "pass" "" "r" 0) "r1" =
      ⟨"r1", "pass", "No evidence provided", "r", .int 50⟩ ∧
    ("No evidence provided" ≠ ("" : String) ∧ JsNum.int 50 ≠ .int 0) :=
  ⟨rfl, by decide, by decide⟩

/-- Claim C5 (amended): for every well-formed model reply with canonical
fields, status exactly "pass" or "fail", non-empty evidence and
reasoning of length at most 200, and integer confidence in [1,100],
normalization reproduces the same four field values unchanged, with
confidence unclamped. -/
theorem normalize_preserves_wellformed_reply (rule s e r : String) (c : Int)
    (hs : s = "pass" ∨ s = "fail") (he : e ≠ "") (hr : r ≠ "")
    (hel : e.data.length ≤ 200) (hrl : r.data.length ≤ 200)
    (hc1 : 1 ≤ c) (hc2 : c ≤ 100) :
    normalizeParsed (mkReply s e r c) rule = ⟨rule, s, e, r, .int c⟩ := by
  have hc0 : ¬(c = 0) := by omega
  rcases hs with rfl | rfl <;>
    simp [normalizeParsed, statusRaw, mkReply, firstTruthy, jsGetField, jsLookup,
      he, hr, hc0, jsToString, jsTruthy, strTake_eq_self _ _ hel,
      strTake_eq_self _ _ hrl, clamp_parse_roundtrip c hc1 hc2,
      show strLower "pass" = "pass" from rfl, show strLower "fail" = "fail" from rfl]

/-- Witness for the amended C5 at the spec's example reply. -/
theorem normalize_preserves_wellformed_reply_witness :
    normalizeParsed (mkReply "pass" "e" "r" 87) "rule" =
      ⟨"rule", "pass", "e", "r", .int 87⟩ :=
  normalize_preserves_wellformed_reply "rule" "pass" "e" "r" 87
    (Or.inl rfl) (by decide) (by decide) (by decide) (by decide)
    (by decide) (by decide)

/-- Claim C6: the clamp itself works as claimed (150 becomes 100, -5
becomes 0), but the "non-numeric defaults to the neutral value" half
fails on the code: a truthy non-numeric confidence (the string "abc")
is not replaced by 50 — `parseInt` makes it `NaN` and the clamp keeps
`NaN`.  This theorem evaluates all three cases. -/
theorem confidence_clamp_and_nan (rule : String) :
    (normalizeParsed (mkReply "pass" "e" "r" 150) rule).confidence = .int 100 ∧
    (normalizeParsed (mkReply "pass" "e" "r" (-5)) rule).confidence = .int 0 ∧
    (normalizeParsed (.jobj [("status", .jstr "pass"), ("confidence", .jstr "abc")])
      rule).confidence = .nan :=
  ⟨rfl, rfl, rfl⟩

/-- Claim C8: field extraction is synonym-tolerant — a reply using only
the capitalized synonym keys Status/Evidence/Reasoning/Confidence, and a
reply using only the alternate-name keys Status/quote/reason/score, each
normalize to exactly the same Verdict as the reply using the canonical
keys status/evidence/reasoning/confidence with the same values.  Between
them the two conjuncts exercise every accepted key the claim names. -/
theorem synonym_keys_map_to_canonical (rule s e r : String) (c : Int) :
    (normalizeParsed (.jobj [("Status", .jstr s), ("Evidence", .jstr e),
      ("Reasoning", .jstr r), ("Confidence", .jnum c)]) rule =
      normalizeParsed (mkReply s e r c) rule) ∧
    (normalizeParsed (.jobj [("Status", .jstr s), ("quote", .jstr e),
      ("reason", .jstr r), ("score", .jnum c)]) rule =
      normalizeParsed (mkReply s e r c) rule) :=
  ⟨rfl, rfl⟩

/-- Claim C9: the status value is lower-cased; whenever the lower-cased
looked-up value is not exactly "pass" or "fail" (including when the
field is missing, where the default "fail" is used) the verdict's
status is "fail"; status is "pass" only when the lower-cased value is
"pass"; and a valid lower-cased value is kept as is. -/
theorem status_closed_world (v : JVal) (rule : String) :
    ((normalizeParsed v rule).status = "pass" ∨
      (normalizeParsed v rule).status = "fail") ∧
    (strLower (statusRaw v) ≠ "pass" ∧ strLower (statusRaw v) ≠ "fail" →
      (normalizeParsed v rule).status = "fail") ∧
    ((normalizeParsed v rule).status = "pass" → strLower (statusRaw v) = "pass") ∧
    (strLower (statusRaw v) = "pass" ∨ strLower (statusRaw v) = "fail" →
      (normalizeParsed v rule).status = strLower (statusRaw v)) := by
  by_cases hp : strLower (statusRaw v) = "pass" <;>
    by_cases hf : strLower (statusRaw v) = "fail" <;>
    simp [normalizeParsed, hp, hf]

/-- Witness for C9 at the ambiguous status "maybe". -/
theorem status_closed_world_witness :
    (normalizeParsed (.jobj [("status", .jstr "maybe")]) "r").status = "fail" :=
  (status_closed_world (.jobj [("status", .jstr "maybe")]) "r").2.1 (by decide)

theorem firstTruthy_falsy_head (v : JVal) (k : String) (ks : List String)
    (w : JVal) (hw : jsGetField v k = some w) (htw : jsTruthy w = false) :
    firstTruthy v (k :: ks) = firstTruthy v ks := by
  simp [firstTruthy, hw, htw]

/-- Claim C10 (counterexample): the claim says a present-but-falsy field
is replaced by the missing-field fallback; but when a later synonym key
holds a truthy value the `||` chain uses that value instead — here a
reply with evidence `""` and quote `"q"` yields evidence `"q"`, not
"No evidence provided". -/
theorem falsy_with_synonym_keeps_synonym :
    normalizeParsed (.jobj [("status", .jstr "pass"), ("evidence", .jstr ""),
      ("quote", .jstr "q"), ("reasoning", .jstr "r"), ("confidence", .jnum 5)]) "r1" =
      ⟨"r1", "pass", "q", "r", .int 5⟩ ∧
    ("q" : String) ≠ "No evidence provided" :=
  ⟨rfl, by decide⟩

/-- Claim C10 (amended): for every successfully parsed reply in which a
canonical field is present but JavaScript-falsy (evidence or reasoning
`""`, or confidence 0), the normalizer discards the supplied value: the
chain falls through to the remaining synonym keys, and when none of them
holds a truthy value the missing-field fallback is used
("No evidence provided", "No reasoning provided", or 50 respectively);
when a later synonym key does hold a truthy value, that value is used
instead of the fallback. -/
theorem falsy_fields_replaced (v : JVal) (rule : String) :
    (∀ w, jsGetField v "evidence" = some w → jsTruthy w = false →
      firstTruthy v ["Evidence", "quote"] = none →
      (normalizeParsed v rule).evidence = "No evidence provided") ∧
    (∀ w, jsGetField v "reasoning" = some w → jsTruthy w = false →
      firstTruthy v ["Reasoning", "reason"] = none →
      (normalizeParsed v rule).reasoning = "No reasoning provided") ∧
    (∀ w, jsGetField v "confidence" = some w → jsTruthy w = false →
      firstTruthy v ["Confidence", "score"] = none →
      (normalizeParsed v rule).confidence = .int 50) ∧
    (∀ w u, jsGetField v "evidence" = some w → jsTruthy w = false →
      firstTruthy v ["Evidence", "quote"] = some u →
      (normalizeParsed v rule).evidence = strTake 200 (jsToString u)) ∧
    (∀ w u, jsGetField v "reasoning" = some w → jsTruthy w = false →
      firstTruthy v ["Reasoning", "reason"] = some u →
      (normalizeParsed v rule).reasoning = strTake 200 (jsToString u)) ∧
    (∀ w u, jsGetField v "confidence" = some w → jsTruthy w = false →
      firstTruthy v ["Confidence", "score"] = some u →
      (normalizeParsed v rule).confidence = jsClamp (jsParseInt u)) := by
  refine ⟨fun w hw htw hnone => ?_, fun w hw htw hnone => ?_,
    fun w hw htw hnone => ?_, fun w u hw htw hsome => ?_,
    fun w u hw htw hsome => ?_, fun w u hw htw hsome => ?_⟩
  · simp [normalizeParsed, firstTruthy_falsy_head v _ _ w hw htw, hnone,
      show strTake 200 "No evidence provided" = "No evidence provided" from rfl,
      jsToString]
  · simp [normalizeParsed, firstTruthy_falsy_head v _ _ w hw htw, hnone,
      show strTake 200 "No reasoning provided" = "No reasoning provided" from rfl,
      jsToString]
  · simp [normalizeParsed, firstTruthy_falsy_head v _ _ w hw htw, hnone,
      show jsClamp (jsParseInt (JVal.jnum 50)) = JsNum.int 50 from rfl]
  · simp [normalizeParsed, firstTruthy_falsy_head v _ _ w hw htw, hsome]
  · simp [normalizeParsed, firstTruthy_falsy_head v _ _ w hw htw, hsome]
  · simp [normalizeParsed, firstTruthy_falsy_head v _ _ w hw htw, hsome]

/-- Witness for the amended C10 at the reply whose three canonical
fields are all present and falsy with no synonyms: each one is replaced
by its fallback. -/
theorem falsy_fields_replaced_witness :
    (normalizeParsed (mkReply "pass" "" "" 0) "r").evidence = "No evidence provided" ∧
    (normalizeParsed (mkReply "pass" "" "" 0) "r").reasoning = "No reasoning provided" ∧
    (normalizeParsed (mkReply "pass" "" "" 0) "r").confidence = .int 50 := by
  obtain ⟨h1, h2, h3, _⟩ := falsy_fields_replaced (mkReply "pass" "" "" 0) "r"
  exact ⟨h1 (.jstr "") rfl rfl rfl, h2 (.jstr "") rfl rfl rfl,
    h3 (.jnum 0) rfl rfl rfl⟩

theorem m1_shrink (cs r : List Char) (h : matchFence1 cs = some r) :
    r.length < cs.length := by
  unfold matchFence1 at h
  split at h
  next a b c d e f g rest =>
    split at h
    · obtain rfl : dropLws rest = r := Option.some.inj h
      have hle : (dropLws rest).length ≤ rest.length :=
        (List.dropWhile_suffix isJsWs).length_le
      simp only [List.length_cons]
      omega
    · exact absurd h (by simp)
  next => exact absurd h (by simp)

theorem m2_shrink (cs r : List Char) (h : matchFence2 cs = some r) :
    r.length < cs.length := by
  unfold matchFence2 at h
  split at h
  next a b c rest =>
    split at h
    · obtain rfl : dropLws rest = r := Option.some.inj h
      have hle : (dropLws rest).length ≤ rest.length :=
        (List.dropWhile_suffix isJsWs).length_le
      simp only [List.length_cons]
      omega
    · exact absurd h (by simp)
  next => exact absurd h (by simp)

theorem scan_fuel_irrel (f : List Char → Option (List Char))
    (hf : ∀ cs r, f cs = some r → r.length < cs.length) :
    ∀ fuel1 fuel2 cs, cs.length < fuel1 → cs.length < fuel2 →
      scanStripF f fuel1 cs = scanStripF f fuel2 cs := by
  intro fuel1
  induction fuel1 with
  | zero => intro fuel2 cs h1 _; exact absurd h1 (Nat.not_lt_zero _)
  | succ n ih =>
    intro fuel2 cs h1 h2
    cases fuel2 with
    | zero => exact absurd h2 (Nat.not_lt_zero _)
    | succ m =>
      simp only [scanStripF]
      cases hm : f cs with
      | some r =>
        have hr := hf cs r hm
        exact ih m r (by omega) (by omega)
      | none =>
        cases cs with
        | nil => rfl
        | cons c cs1 =>
          have : cs1.length < n ∧ cs1.length < m := by
            simp only [List.length_cons] at h1 h2
            omega
          exact congrArg (c :: ·) (ih m cs1 this.1 this.2)

theorem scan_eq_self (f : List Char → Option (List Char)) :
    ∀ (fuel : Nat) (cs : List Char), (∀ s, s <:+ cs → f s = none) →
      scanStripF f fuel cs = cs := by
  intro fuel
  induction fuel with
  | zero => intro cs _; rfl
  | succ n ih =>
    intro cs h
    have h0 : f cs = none := h cs (List.suffix_refl cs)
    cases cs with
    | nil => simp [scanStripF, h0]
    | cons c cs1 =>
      simp only [scanStripF, h0]
      exact congrArg (c :: ·)
        (ih cs1 (fun s hs => h s (hs.trans (List.suffix_cons c cs1))))

theorem scan_append (f : List Char → Option (List Char)) :
    ∀ (X : List Char) (fuel : Nat) (T : List Char),
      (∀ a, a <:+ X → a ≠ [] → f (a ++ T) = none) →
      scanStripF f fuel (X ++ T) = X ++ scanStripF f (fuel - X.length) T := by
  intro X
  induction X with
  | nil => intro fuel T _; simp
  | cons x X1 ih =>
    intro fuel T h
    cases fuel with
    | zero =>
      cases hm : f ((x :: X1) ++ T) <;> simp [scanStripF]
    | succ n =>
      have h0 : f ((x :: X1) ++ T) = none := h (x :: X1) (List.suffix_refl _) (by simp)
      simp only [List.cons_append] at h0 ⊢
      simp only [scanStripF, h0]
      rw [ih n T (fun a ha hne => h a (ha.trans (List.suffix_cons x X1)) hne)]
      simp [Nat.succ_sub_succ]

theorem scan_step (f : List Char → Option (List Char)) (fuel : Nat)
    (cs r : List Char) (h : f cs = some r) :
    scanStripF f (fuel + 1) cs = scanStripF f fuel r := by
  simp [scanStripF, h]

theorem ticksAhead_append (xs ys : List Char) (h : ticksAhead xs = true) :
    ticksAhead (xs ++ ys) = true := by
  cases xs with
  | nil => simp [ticksAhead] at h
  | cons a rest =>
    cases rest with
    | nil => simp [ticksAhead] at h
    | cons b rest2 => simpa [ticksAhead] using h

theorem htt_tail (c : Char) (cs : List Char)
    (h : hasTripleTick (c :: cs) = false) : hasTripleTick cs = false := by
  simp [hasTripleTick] at h
  exact h.2

theorem htt_of_suffix (s cs : List Char) (hs : s <:+ cs)
    (h : hasTripleTick cs = false) : hasTripleTick s = false := by
  obtain ⟨pre, rfl⟩ := hs
  induction pre with
  | nil => exact h
  | cons p pre ih => exact ih (htt_tail _ _ h)

theorem htt_append_right (s post : List Char) (h : hasTripleTick s = true) :
    hasTripleTick (s ++ post) = true := by
  induction s with
  | nil => simp [hasTripleTick] at h
  | cons c s1 ih =>
    simp only [hasTripleTick, Bool.or_eq_true, Bool.and_eq_true] at h ⊢
    rcases h with ⟨hc, hta⟩ | h2
    · exact Or.inl ⟨hc, ticksAhead_append _ _ hta⟩
    · exact Or.inr (ih h2)

theorem htt_of_pre (s cs : List Char) (hs : s <+: cs)
    (h : hasTripleTick cs = false) : hasTripleTick s = false := by
  obtain ⟨post, rfl⟩ := hs
  cases hx : hasTripleTick s
  · rfl
  · rw [htt_append_right s post hx] at h
    cases h

theorem no_ticks_not_ticks (a : List Char) (h : hasTripleTick a = false) :
    ∀ rest, a ≠ '`' :: '`' :: '`' :: rest := by
  intro rest heq
  subst heq
  simp [hasTripleTick, ticksAhead] at h

theorem append_tl_not_ticks (a : List Char) (hne : a ≠ [])
    (ha : hasTripleTick a = false) :
    ∀ rest, a ++ nlTicks ≠ '`' :: '`' :: '`' :: rest := by
  intro rest heq
  match a, hne with
  | [c1], _ => simp [nlTicks] at heq
  | [c1, c2], _ => simp [nlTicks] at heq
  | c1 :: c2 :: c3 :: a3, _ =>
    simp only [List.cons_append, List.cons.injEq] at heq
    obtain ⟨rfl, rfl, rfl, _⟩ := heq
    simp [hasTripleTick, ticksAhead] at ha

theorem m1_none_of_not_ticks (xs : List Char)
    (h : ∀ rest, xs ≠ '`' :: '`' :: '`' :: rest) : matchFence1 xs = none := by
  unfold matchFence1
  split
  next a b c d e f g rest =>
    split
    next hc =>
      exact absurd (by rw [hc.1, hc.2.1, hc.2.2.1]) (h (d :: e :: f :: g :: rest))
    next => rfl
  next => rfl

theorem m2_none_of_not_ticks (xs : List Char)
    (h : ∀ rest, xs ≠ '`' :: '`' :: '`' :: rest) : matchFence2 xs = none := by
  unfold matchFence2
  split
  next a b c rest =>
    split
    next hc => exact absurd (by rw [hc.1, hc.2.1, hc.2.2]) (h rest)
    next => rfl
  next => rfl

theorem m1_none_nlTicks_suffix (s : List Char) (hs : s <:+ nlTicks) :
    matchFence1 s = none := by
  have h : ∀ x ∈ nlTicks.tails, matchFence1 x = none := by decide
  exact h s ((List.mem_tails s nlTicks).mpr hs)

theorem m1_none_ticks3_suffix (s : List Char) (hs : s <:+ ['`', '`', '`']) :
    matchFence1 s = none := by
  have h : ∀ x ∈ (['`', '`', '`'] : List Char).tails, matchFence1 x = none := by
    decide
  exact h s ((List.mem_tails s _).mpr hs)

theorem dropLws_idem (cs : List Char) : dropLws (dropLws cs) = dropLws cs := by
  induction cs with
  | nil => rfl
  | cons c cs1 ih =>
    by_cases hc : isJsWs c = true
    · simp [dropLws, List.dropWhile_cons, hc] at ih ⊢
      exact ih
    · simp only [Bool.not_eq_true] at hc
      simp [dropLws, List.dropWhile_cons, hc]

theorem dropRws_isPre (cs : List Char) : dropRws cs <+: cs := by
  rw [← List.reverse_suffix]
  simpa [dropRws] using List.dropWhile_suffix (l := cs.reverse) isJsWs

theorem dropRws_snoc_ws (xs : List Char) (c : Char) (hc : isJsWs c = true) :
    dropRws (xs ++ [c]) = dropRws xs := by
  simp [dropRws, List.reverse_append, List.dropWhile_cons, hc]

theorem trim_append_ws_right (cs : List Char) (c : Char) (hc : isJsWs c = true) :
    trimChars (cs ++ [c]) = trimChars cs := by
  unfold trimChars
  unfold dropLws
  rw [List.dropWhile_append]
  by_cases he : (cs.dropWhile isJsWs).isEmpty = true
  · simp only [he, if_true]
    simp only [List.isEmpty_iff] at he
    simp [he, List.dropWhile_cons, hc, dropRws]
  · simp only [he, if_false]
    exact dropRws_snoc_ws _ c hc

theorem trim_dropLws (cs : List Char) : trimChars (dropLws cs) = trimChars cs := by
  unfold trimChars
  rw [dropLws_idem]

theorem dropRws_idem (cs : List Char) : dropRws (dropRws cs) = dropRws cs := by
  unfold dropRws
  rw [List.reverse_reverse]
  have h := dropLws_idem cs.reverse
  simp only [dropLws] at h
  rw [h]

theorem dropLws_dropRws_stable (cs : List Char) (h : dropLws cs = cs) :
    dropLws (dropRws cs) = dropRws cs := by
  cases hd : dropRws cs with
  | nil => rfl
  | cons c ys =>
    have hpre : dropRws cs <+: cs := dropRws_isPre cs
    rw [hd] at hpre
    obtain ⟨post, hpost⟩ := hpre
    rw [← hpost] at h
    simp only [List.cons_append] at h
    by_cases hc : isJsWs c = true
    · exfalso
      have hlen : (dropLws (c :: (ys ++ post))).length ≤ (ys ++ post).length := by
        simp only [dropLws, List.dropWhile_cons, hc, if_true]
        exact (List.dropWhile_suffix isJsWs).length_le
      rw [h] at hlen
      simp at hlen
    · simp only [Bool.not_eq_true] at hc
      simp [dropLws, List.dropWhile_cons, hc]

theorem trim_idem (cs : List Char) : trimChars (trimChars cs) = trimChars cs := by
  unfold trimChars
  rw [dropLws_dropRws_stable (dropLws cs) (dropLws_idem cs), dropRws_idem]

theorem trim_eq_self_of_ends (cs : List Char)
    (h1 : ∃ c cs1, cs = c :: cs1 ∧ isJsWs c = false)
    (h2 : ∃ c cs1, cs = cs1 ++ [c] ∧ isJsWs c = false) :
    trimChars cs = cs := by
  obtain ⟨a, as, rfl, ha⟩ := h1
  obtain ⟨b, bs, hb, hbw⟩ := h2
  unfold trimChars
  have hL : dropLws (a :: as) = a :: as := by
    simp [dropLws, List.dropWhile_cons, ha]
  rw [hL, hb]
  simp [dropRws, List.reverse_append, List.dropWhile_cons, hbw]

theorem stripFences_id (t : List Char) (h : hasTripleTick t = false) :
    stripFences t = t := by
  unfold stripFences
  rw [scan_eq_self matchFence1 _ t
    (fun s hs => m1_none_of_not_ticks s (no_ticks_not_ticks s (htt_of_suffix s t hs h)))]
  exact scan_eq_self matchFence2 _ t
    (fun s hs => m2_none_of_not_ticks s (no_ticks_not_ticks s (htt_of_suffix s t hs h)))

theorem stripFences_wrap (t : List Char) (h : hasTripleTick t = false) :
    trimChars (stripFences (hdrTicks ++ (t ++ nlTicks))) = trimChars t := by
  unfold stripFences
  have hm1 : matchFence1 (hdrTicks ++ (t ++ nlTicks)) =
      some (dropLws (t ++ nlTicks)) := rfl
  rw [scan_step matchFence1 _ _ _ hm1]
  by_cases hE : dropLws t = []
  · have hdl : dropLws (t ++ nlTicks) = ['`', '`', '`'] := by
      unfold dropLws at hE ⊢
      rw [List.dropWhile_append]
      simp [List.isEmpty_iff, hE]
      rfl
    rw [hdl]
    rw [scan_eq_self matchFence1 _ _ m1_none_ticks3_suffix]
    have h3 : (3 : Nat) < (hdrTicks ++ (t ++ nlTicks)).length + 1 := by
      simp [hdrTicks, nlTicks]
    rw [scan_fuel_irrel matchFence2 m2_shrink _ 4 _ h3 (by decide)]
    have hT : trimChars t = [] := by
      unfold trimChars
      rw [hE]
      rfl
    rw [hT]
    rfl
  · have hne : (List.dropWhile isJsWs t).isEmpty = false := by
      simp only [List.isEmpty_eq_false]
      exact hE
    have hX : dropLws (t ++ nlTicks) = dropLws t ++ nlTicks := by
      unfold dropLws
      rw [List.dropWhile_append, hne]
      simp
    have hXt : hasTripleTick (dropLws t) = false :=
      htt_of_suffix _ t (List.dropWhile_suffix isJsWs) h
    rw [hX]
    rw [scan_append matchFence1 (dropLws t) _ nlTicks
      (fun a ha hane => m1_none_of_not_ticks _
        (append_tl_not_ticks a hane (htt_of_suffix a _ ha hXt)))]
    rw [scan_eq_self matchFence1 _ nlTicks m1_none_nlTicks_suffix]
    rw [scan_append matchFence2 (dropLws t) _ nlTicks
      (fun a ha hane => m2_none_of_not_ticks _
        (append_tl_not_ticks a hane (htt_of_suffix a _ ha hXt)))]
    have hlx : (dropLws t).length ≤ t.length :=
      (List.dropWhile_suffix isJsWs).length_le
    have h4 : (4 : Nat) <
        (hdrTicks ++ (t ++ nlTicks)).length + 1 - (dropLws t).length := by
      simp only [List.length_append, hdrTicks, nlTicks, List.length_cons,
        List.length_nil]
      omega
    rw [scan_fuel_irrel matchFence2 m2_shrink _ 5 nlTicks h4 (by decide)]
    have h5 : scanStripF matchFence2 5 nlTicks = ['\n'] := rfl
    rw [h5]
    rw [trim_append_ws_right (dropLws t) '\n' (by decide)]
    exact trim_dropLws t

theorem extractJSON_wrap (t : String) (h : fenceFree t) :
    extractJSON (strTrim (wrapFence t)) = extractJSON (strTrim t) := by
  have hh : hasTripleTick t.data = false := h
  have hwd : (wrapFence t).data = hdrTicks ++ (t.data ++ nlTicks) := by
    simp [wrapFence, String.data_append, hdrTicks, nlTicks,
      show ("```json\n" : String).data = hdrTicks from rfl,
      show ("\n```" : String).data = nlTicks from rfl]
  have hwt : trimChars (wrapFence t).data = hdrTicks ++ (t.data ++ nlTicks) := by
    rw [hwd]
    refine trim_eq_self_of_ends _
      ⟨'`', ['`', '`', 'j', 's', 'o', 'n', '\n'] ++ (t.data ++ nlTicks), rfl, by decide⟩
      ⟨'`', hdrTicks ++ (t.data ++ ['\n', '`', '`']), ?_, by decide⟩
    simp [hdrTicks, nlTicks, List.append_assoc]
  have hY : hasTripleTick (trimChars t.data) = false :=
    htt_of_pre _ _ (dropRws_isPre _)
      (htt_of_suffix _ _ (List.dropWhile_suffix isJsWs) hh)
  unfold extractJSON
  refine congrArg String.mk ?_
  have e1 : (strTrim (wrapFence t)).data = hdrTicks ++ (t.data ++ nlTicks) := hwt
  have e2 : (strTrim t).data = trimChars t.data := rfl
  rw [e1, e2, stripFences_wrap t.data hh, stripFences_id _ hY, trim_idem]

/-- Claim C7: a reply consisting of a payload wrapped in the markdown
code fences stripped by `extractJSON` normalizes to exactly the same
Verdict as the bare payload, for every payload that does not itself
contain a fence marker (a run of three backticks) — in particular for
every serialized JSON object free of backtick runs. -/
theorem fence_wrapped_reply_equivalent (t rule : String) (h : fenceFree t) :
    normalizeReply (wrapFence t) rule = normalizeReply t rule := by
  unfold normalizeReply
  rw [extractJSON_wrap t h]

/-- Witness for C7 at the spec's example reply. -/
theorem fence_wrapped_reply_equivalent_witness :
    fenceFree "\x7b\"status\":\"pass\",\"evidence\":\"e\",\"reasoning\":\"r\",\"confidence\":87\x7d" ∧
    normalizeReply
      (wrapFence "\x7b\"status\":\"pass\",\"evidence\":\"e\",\"reasoning\":\"r\",\"confidence\":87\x7d") "r1" =
    normalizeReply "\x7b\"status\":\"pass\",\"evidence\":\"e\",\"reasoning\":\"r\",\"confidence\":87\x7d" "r1" :=
  ⟨rfl, fence_wrapped_reply_equivalent _ "r1" rfl⟩
